import Mathlib

/-!
Verification development for the JBot command-dispatch engine
(`nyaplugin/command_handler/command.py` and
`nyaplugin/command_handler/command_handler_plugin.py`).

The Python classes are shallowly embedded as Lean definitions:

* `ReturnValue`          — class `ReturnValue`
* `ParamDesc`, `PType`   — the `(name, type, description)` parameter
  descriptor triples; `PType` models the Python types actually used as
  conversion targets (`str`, `int`), with `PType.convert` modelling the
  call `type(raw_token)` (which may raise → `Option`).
* `fixedCall`            — `FunctionWithFixedParams.__call__`
* `optionalCall`         — `FunctionWithOptionalParam.__call__`
* `variadicCall`         — `FunctionWithVariableParams.__call__`
* `Command`              — the `Command` / `InternalCommand` / `LeafCommand`
  class hierarchy as a tagged tree
* `updateFullName`       — `_update_full_name`
* `mkRootCommand`        — `RootCommand.__init__`
* `Command.helpInfo`     — `help_info`
* `resolveCmd` / `parseCommand` —
  `CQHTTPGroupMessageCommandHandlerPlugin._parse_command`
* `interpretRV` / `handle` — the dispatch part of
  `CQHTTPGroupMessageCommandHandlerPlugin.handle`, with logger calls and
  replies reified as a list of `Effect`s.

Modelling conventions: Python `set[str]` role sets become `List String`
(membership is all the code ever uses); async handlers are modelled as
plain functions (the dispatcher always awaits before interpreting, so the
awaited value is what matters); `repr()` of a token string is modelled by
`pyRepr`, which is exact for strings without quotes, backslashes or
control characters; structured-logging keyword fields are collapsed to a
single optional field string.
-/

/-- Return value protocol of all command handlers (class `ReturnValue`).
`code = 0` means success; `log`/`reply`/`report` are optional channels. -/
structure ReturnValue where
  code : Int
  log : Option String := none
  reply : Option String := none
  report : Option String := none
  need_help : Bool := false
deriving DecidableEq, Repr

/-- Values produced by converting raw string tokens, as passed to a
handler.  `vNone` is Python `None` (the absent optional argument). -/
inductive PyVal where
  | vStr (s : String)
  | vInt (n : Int)
  | vNone
deriving DecidableEq, Repr

/-- The conversion-target types used by parameter descriptors.  In the
source these are the Python type objects stored in the middle slot of a
`(name, type, description)` triple. -/
inductive PType where
  | tStr
  | tInt
deriving DecidableEq, Repr

/-- `type.__name__` of a target type. -/
def PType.pyName : PType → String
  | .tStr => "str"
  | .tInt => "int"

/-- Decimal digit test (`0` – `9` by code point). -/
def isDigitChar (c : Char) : Bool := 48 ≤ c.toNat && c.toNat ≤ 57

/-- Accumulate a decimal digit string into a natural number, failing on
the first non-digit. -/
def digitsToNat (acc : Nat) : List Char → Option Nat
  | [] => some acc
  | c :: cs =>
    if isDigitChar c then digitsToNat (acc * 10 + (c.toNat - 48)) cs
    else none

/-- Python `int(string)`: an optional sign (`-` is code point 45, `+` is
43) followed by at least one decimal digit; anything else raises
`ValueError` (`none` here).  Leading/trailing whitespace and digit-group
underscores, which Python also accepts, are not modelled: command tokens
have already been split on whitespace. -/
def pyInt (s : String) : Option Int :=
  match s.data with
  | [] => none
  | c :: cs =>
    if c.toNat = 45 then
      match cs with
      | [] => none
      | _ => (digitsToNat 0 cs).map (fun n => -(n : Int))
    else if c.toNat = 43 then
      match cs with
      | [] => none
      | _ => (digitsToNat 0 cs).map (fun n => (n : Int))
    else (digitsToNat 0 (c :: cs)).map (fun n => (n : Int))

/-- Applying a target type to a raw token, i.e. the call
`fixed_param_desc[1](raw_arg)` in the source.  `str(x)` never fails;
`int(x)` fails (raises, hence `none`) when the token is not an integer
literal. -/
def PType.convert : PType → String → Option PyVal
  | .tStr, s => some (.vStr s)
  | .tInt, s => (pyInt s).map .vInt

/-- A parameter descriptor triple `(参数名, 参数类型, 参数描述)`. -/
structure ParamDesc where
  name : String
  ty : PType
  desc : String
deriving DecidableEq, Repr

/-- Python `repr` of a token string (exact for tokens without quote,
backslash or control characters). -/
def pyRepr (s : String) : String := "\x27" ++ s ++ "\x27"

/-- The `ReturnValue` built by `FunctionWithFixedParams.__call__` when the
argument count is wrong (expected exactly `n`, got `k`). -/
def fixedArgNumRV (n k : Nat) : ReturnValue :=
  { code := 1
    log := some ("Invalid argument number: expected " ++ toString n
      ++ ", got " ++ toString k)
    reply := some ("参数数量错误：需要 " ++ toString n
      ++ " 个参数，但传入 " ++ toString k ++ " 个参数")
    need_help := true }

/-- The `ReturnValue` built when converting a raw token to a (fixed or
variadic) descriptor's type raises: names the offending parameter and the
raw value. -/
def convErrRV (d : ParamDesc) (raw : String) : ReturnValue :=
  { code := 1
    log := some ("Invalid argument: expected " ++ d.ty.pyName
      ++ ", got " ++ pyRepr raw)
    reply := some ("参数类型错误：参数 " ++ d.name ++ " 为 " ++ d.ty.pyName
      ++ " 类型，但传入 " ++ pyRepr raw)
    need_help := true }

/-- Left-to-right conversion of raw tokens against a descriptor list,
modelling the `for ... in zip(raw_arg_list, fixed_param_desc_list)` loop:
like `zip`, it stops at the shorter list; the first conversion failure
short-circuits with the corresponding error `ReturnValue`. -/
def convertZip : List String → List ParamDesc → Except ReturnValue (List PyVal)
  | [], _ => .ok []
  | _, [] => .ok []
  | r :: rs, d :: ds =>
    match d.ty.convert r with
    | none => .error (convErrRV d r)
    | some v =>
      match convertZip rs ds with
      | .error e => .error e
      | .ok vs => .ok (v :: vs)

/-- `FunctionWithFixedParams.__call__`: length check, then conversion of
every token, then handler invocation.  The plugin receiver argument is
absorbed into `handler`. -/
def fixedCall (descs : List ParamDesc) (handler : List PyVal → ReturnValue)
    (raw : List String) : ReturnValue :=
  if raw.length ≠ descs.length then
    fixedArgNumRV descs.length raw.length
  else
    match convertZip raw descs with
    | .error rv => rv
    | .ok args => handler args

/-- The `ReturnValue` built by `FunctionWithOptionalParam.__call__` when
fewer tokens than fixed descriptors are supplied. -/
def optArgNumRV (n k : Nat) : ReturnValue :=
  { code := 1
    log := some ("Invalid argument number: expected " ++ toString n
      ++ " or " ++ toString (n + 1) ++ ", got " ++ toString k)
    reply := some ("参数数量错误：需要 " ++ toString n ++ " 或 "
      ++ toString (n + 1) ++ " 个参数，但传入 " ++ toString k ++ " 个参数")
    need_help := true }

/-- The `ReturnValue` built when converting the trailing optional token
raises (the expected type is rendered as `Optional[...]`). -/
def optConvErrRV (d : ParamDesc) (raw : String) : ReturnValue :=
  { code := 1
    log := some ("Invalid argument: expected Optional[" ++ d.ty.pyName
      ++ "], got " ++ pyRepr raw)
    reply := some ("参数类型错误：参数 " ++ d.name ++ " 为 Optional["
      ++ d.ty.pyName ++ "] 类型，但传入 " ++ pyRepr raw)
    need_help := true }

/-- `FunctionWithOptionalParam.__call__`.  Note the exact source shape:
the only count check is `len(raw_arg_list) < len(fixed)`; when more
tokens than fixed descriptors are present the *last* token
(`raw_arg_list[-1]`) is converted as the optional argument.  The
`getLastD ""` branch is unreachable there since `raw.length >
descs.length ≥ 0` forces `raw ≠ []`. -/
def optionalCall (descs : List ParamDesc) (optDesc : ParamDesc)
    (handler : List PyVal → ReturnValue) (raw : List String) : ReturnValue :=
  if raw.length < descs.length then
    optArgNumRV descs.length raw.length
  else
    match convertZip (raw.take descs.length) descs with
    | .error rv => rv
    | .ok args =>
      if raw.length > descs.length then
        match optDesc.ty.convert (raw.getLastD "") with
        | none => optConvErrRV optDesc (raw.getLastD "")
        | some v => handler (args ++ [v])
      else
        handler (args ++ [PyVal.vNone])

/-- The `ReturnValue` built by `FunctionWithVariableParams.__call__` when
fewer tokens than fixed descriptors are supplied. -/
def varArgNumRV (n k : Nat) : ReturnValue :=
  { code := 1
    log := some ("Invalid argument number: expected at least " ++ toString n
      ++ ", got " ++ toString k)
    reply := some ("参数数量错误：需要至少 " ++ toString n
      ++ " 个参数，但传入 " ++ toString k ++ " 个参数")
    need_help := true }

/-- Conversion of the variadic tail: every token beyond the fixed part is
individually converted to the variadic descriptor's type, first failure
short-circuiting. -/
def convertTail (d : ParamDesc) : List String → Except ReturnValue (List PyVal)
  | [] => .ok []
  | r :: rs =>
    match d.ty.convert r with
    | none => .error (convErrRV d r)
    | some v =>
      match convertTail d rs with
      | .error e => .error e
      | .ok vs => .ok (v :: vs)

/-- `FunctionWithVariableParams.__call__`. -/
def variadicCall (descs : List ParamDesc) (varDesc : ParamDesc)
    (handler : List PyVal → ReturnValue) (raw : List String) : ReturnValue :=
  if raw.length < descs.length then
    varArgNumRV descs.length raw.length
  else
    match convertZip (raw.take descs.length) descs with
    | .error rv => rv
    | .ok args =>
      match convertTail varDesc (raw.drop descs.length) with
      | .error rv => rv
      | .ok tailArgs => handler (args ++ tailArgs)

/-- One-line usage fragment for the fixed descriptors
(`FunctionWithFixedParams.get_param_inline`, and the fixed part of the
other two variants): `<name:type>` fragments joined by single spaces. -/
def joinWith (sep : String) : List String → String
  | [] => ""
  | [x] => x
  | x :: y :: t => x ++ sep ++ joinWith sep (y :: t)

/-- A `<name:type>` usage fragment for one descriptor. -/
def inlineFrag (d : ParamDesc) : String :=
  "<" ++ d.name ++ ":" ++ d.ty.pyName ++ ">"

/-- `FunctionWithFixedParams.get_param_inline`. -/
def fixedInline (descs : List ParamDesc) : String :=
  joinWith " " (descs.map inlineFrag)

/-- `FunctionWithOptionalParam.get_param_inline`: the bracketed optional
fragment is appended directly after the space-joined fixed fragments (the
source has no separating space before the bracket). -/
def optionalInline (descs : List ParamDesc) (optDesc : ParamDesc) : String :=
  joinWith " " (descs.map inlineFrag) ++ "[" ++ inlineFrag optDesc ++ "]"

/-- `FunctionWithVariableParams.get_param_inline`: same shape with a
trailing ellipsis inside the bracket, again with no space before the
bracket. -/
def variadicInline (descs : List ParamDesc) (varDesc : ParamDesc) : String :=
  joinWith " " (descs.map inlineFrag) ++ "[" ++ inlineFrag varDesc ++ " ...]"

/-- A `* name：description` bullet for one descriptor (`get_param_desc`). -/
def descBullet (d : ParamDesc) : String := "* " ++ d.name ++ "：" ++ d.desc

/-- `FunctionWithFixedParams.get_param_desc`. -/
def fixedParamDesc (descs : List ParamDesc) : String :=
  joinWith "\n" (descs.map descBullet)

/-- `get_param_desc` of the optional / variadic variants: fixed bullets,
then the tail descriptor's bullet (without a leading newline when there
are no fixed descriptors). -/
def tailParamDesc (descs : List ParamDesc) (tailDesc : ParamDesc) : String :=
  let fixedStr := joinWith "\n" (descs.map descBullet)
  if fixedStr = "" then descBullet tailDesc
  else fixedStr ++ "\n" ++ descBullet tailDesc

/-- The three signature-contract variants (source classes
`FunctionWithFixedParams`, `FunctionWithOptionalParam`,
`FunctionWithVariableParams`), each holding its descriptor shape and the
wrapped handler.  The construction-time signature check `_check` is
reflection over Python annotations and is not modelled. -/
inductive CommandFunction where
  | fixed (descs : List ParamDesc) (handler : List PyVal → ReturnValue)
  | fixedOptional (descs : List ParamDesc) (optDesc : ParamDesc)
      (handler : List PyVal → ReturnValue)
  | fixedVariadic (descs : List ParamDesc) (varDesc : ParamDesc)
      (handler : List PyVal → ReturnValue)

/-- `Function.__call__` dispatched over the three variants. -/
def CommandFunction.call : CommandFunction → List String → ReturnValue
  | .fixed descs h, raw => fixedCall descs h raw
  | .fixedOptional descs od h, raw => optionalCall descs od h raw
  | .fixedVariadic descs vd h, raw => variadicCall descs vd h raw

/-- `Function.get_param_inline` dispatched over the three variants. -/
def CommandFunction.paramInline : CommandFunction → String
  | .fixed descs _ => fixedInline descs
  | .fixedOptional descs od _ => optionalInline descs od
  | .fixedVariadic descs vd _ => variadicInline descs vd

/-- `Function.get_param_desc` dispatched over the three variants. -/
def CommandFunction.paramDescText : CommandFunction → String
  | .fixed descs _ => fixedParamDesc descs
  | .fixedOptional descs od _ => tailParamDesc descs od
  | .fixedVariadic descs vd _ => tailParamDesc descs vd

/-- The data shared by every `Command` node: `name`, `desc`,
`limited_roles` (`none` = unrestricted, a list models the Python set) and
the mutable `full_name` slot (initialised to `name` by
`Command.__init__`). -/
structure CmdData where
  name : String
  desc : String
  limitedRoles : Option (List String)
  fullName : String

/-- The command tree.  `internal` covers `InternalCommand` and
`RootCommand` (a `RootCommand` is just an `InternalCommand` whose
constructor additionally stamps full names, see `mkRootCommand`); `leaf`
is `LeafCommand` with its wrapped `Function`. -/
inductive Command where
  | internal (d : CmdData) (subs : List Command)
  | leaf (d : CmdData) (func : CommandFunction)

/-- The shared `Command` fields of a node. -/
def Command.data : Command → CmdData
  | .internal d _ => d
  | .leaf d _ => d

def Command.name (c : Command) : String := c.data.name

def Command.fullName (c : Command) : String := c.data.fullName

def Command.limitedRoles (c : Command) : Option (List String) :=
  c.data.limitedRoles

/-- The subcommand list (`subcommand_list`); empty for a leaf. -/
def Command.subsOf : Command → List Command
  | .internal _ subs => subs
  | .leaf _ _ => []

/-- `Command.__init__` for an internal node: `full_name` starts as `name`. -/
def mkInternalCommand (name desc : String) (lr : Option (List String))
    (subs : List Command) : Command :=
  .internal ⟨name, desc, lr, name⟩ subs

/-- `Command.__init__` for a leaf node: `full_name` starts as `name`. -/
def mkLeafCommand (name desc : String) (lr : Option (List String))
    (f : CommandFunction) : Command :=
  .leaf ⟨name, desc, lr, name⟩ f

mutual
/-- `InternalCommand._update_full_name` / `LeafCommand._update_full_name`:
set `full_name := parent_full_name ++ " " ++ name` and (for internal
nodes) push the new full name down into every subcommand. -/
def updateFullName (parentFullName : String) : Command → Command
  | .leaf d f =>
      .leaf { d with fullName := parentFullName ++ " " ++ d.name } f
  | .internal d subs =>
      .internal { d with fullName := parentFullName ++ " " ++ d.name }
        (updateFullNameList (parentFullName ++ " " ++ d.name) subs)

/-- The `for subcommand in self.subcommand_list` loop of
`InternalCommand._update_full_name`. -/
def updateFullNameList (parentFullName : String) :
    List Command → List Command
  | [] => []
  | c :: cs =>
      updateFullName parentFullName c :: updateFullNameList parentFullName cs
end

/-- `RootCommand.__init__`: build the internal node (its own `full_name`
is its `name`, set by `Command.__init__`), then stamp every subcommand's
subtree with full names seeded by the root's `name`. -/
def mkRootCommand (name desc : String) (lr : Option (List String))
    (subs : List Command) : Command :=
  .internal ⟨name, desc, lr, name⟩ (updateFullNameList name subs)

/-- Nonempty intersection of two role collections, i.e. the Python set
expression `a & b` used in a boolean context. -/
def rolesOverlap (a b : List String) : Bool :=
  a.any (fun r => b.contains r)

/-- The denial test used at every hop of `_parse_command`:
`node.limited_roles and not (node.limited_roles & roles)` — Python
truthiness makes an *empty* `limited_roles` set behave as unrestricted. -/
def roleDenied (lr : Option (List String)) (roles : List String) : Bool :=
  match lr with
  | none => false
  | some l => !l.isEmpty && !(rolesOverlap l roles)

/-- The child-visibility test of `InternalCommand.help_info`:
`(subcommand.limited_roles is None) or (roles & subcommand.limited_roles)`. -/
def roleVisible (c : Command) (roles : List String) : Bool :=
  match c.data.limitedRoles with
  | none => true
  | some l => rolesOverlap roles l

/-- One `* name: desc` bullet of the subcommand list in
`InternalCommand.help_info`. -/
def bulletLine (c : Command) : String :=
  "* " ++ c.data.name ++ ": " ++ c.data.desc

/-- `help_info`.  For an internal node: full name, description, then one
bullet per role-visible child.  For a leaf: full name plus the usage
fragment, then the parameter list (or a no-parameters notice).  The
`assert` at the top of the source (caller already holds this node's
permission) is a documented precondition, not behaviour, and is modelled
by the separate predicate `helpPre`. -/
def Command.helpInfo : Command → List String → String
  | .internal d subs, roles =>
      d.fullName ++ "\n" ++ d.desc ++ "\n" ++ "子命令列表：\n"
        ++ joinWith "\n"
          (((subs.filter (fun c => roleVisible c roles)).map bulletLine))
  | .leaf d f, _ =>
      d.fullName ++ " " ++ f.paramInline ++ "\n"
        ++ (if f.paramDescText = "" then "本命令没有参数"
            else "参数列表：\n" ++ f.paramDescText)

/-- The asserted precondition of `help_info`: the caller passed this
node's own permission check. -/
def helpPre (c : Command) (roles : List String) : Prop :=
  c.data.limitedRoles = none ∨
    ∃ r, r ∈ roles ∧ r ∈ c.data.limitedRoles.getD []

/-- The `next(...)` generator expression of `_parse_command`: first
subcommand whose `name` equals the token. -/
def findSubcommand (t : String) (subs : List Command) : Option Command :=
  subs.find? (fun c => c.data.name == t)

/-- The `while isinstance(current_command, InternalCommand)` loop of
`_parse_command`, with the unconsumed token suffix standing for the index
`subcommand_idx` (each iteration either returns or consumes one token).
Returns `(command, remaining tokens, permission denied?)`. -/
def resolveCmd : Command → List String → List String →
    Command × List String × Bool
  | .leaf d f, rest, _ => (.leaf d f, rest, false)
  | .internal d subs, [], _ => (.internal d subs, [], false)
  | .internal d subs, t :: rest, roles =>
    match findSubcommand t subs with
    | none => (.internal d subs, t :: rest, false)
    | some next =>
      if roleDenied next.data.limitedRoles roles then (next, rest, true)
      else resolveCmd next rest roles

/-- `_parse_command`: root-level permission pre-check, then the walk; the
first token (the command's own name, already matched by `rule`) is
skipped. -/
def parseCommand (cmd : Command) (tokens roles : List String) :
    Command × List String × Bool :=
  if roleDenied cmd.data.limitedRoles roles then (cmd, tokens.drop 1, true)
  else resolveCmd cmd (tokens.drop 1) roles

/-- Observable actions of `handle`, in program order: logger calls (the
message plus the main structured field, other fields elided) and outgoing
messages (`event.reply` / `report`). -/
inductive Effect where
  | logError (msg : String) (field : Option String)
  | logInfo (msg : String) (field : Option String)
  | reply (msg : String)
  | report (msg : String)
deriving DecidableEq, Repr

/-- Python truthiness of an `Optional[str]`: `None` and the empty string
are both falsy. -/
def strTruthy : Option String → Bool
  | none => false
  | some s => !s.isEmpty

/-- The `ReturnValue` interpretation block of `handle` (the lines after
the handler call): error/info logging keyed on `ret.code` and `ret.log`,
then the reply, then the operator report (only when a report group is
configured), then the help fallback. -/
def interpretRV (rv : ReturnValue) (reportConfigured : Bool)
    (helpText : String) : List Effect :=
  (if rv.code ≠ 0 then
    (if strTruthy rv.log then [.logError "Error occurred: " rv.log]
     else [.logError "Unknown error occurred" none])
   else if strTruthy rv.log then [.logInfo "Message: " rv.log]
   else [])
  ++ (if strTruthy rv.reply then [.reply (rv.reply.getD "")] else [])
  ++ (if strTruthy rv.report && reportConfigured then
        [.report (rv.report.getD "")]
      else [])
  ++ (if rv.need_help then [.reply helpText] else [])

/-- `-h` / `--help` detection (`raw_args[0] in ("-h", "--help")`). -/
def helpFlag (s : String) : Bool := s == "-h" || s == "--help"

/-- The dispatch part of `handle` (everything after role computation and
tokenization), as the ordered list of its observable effects.  Handlers
are modelled as already awaited. -/
def handle (root : Command) (reportConfigured : Bool)
    (tokens roles : List String) : List Effect :=
  let res := parseCommand root tokens roles
  let cmd := res.1
  let rawArgs := res.2.1
  let denied := res.2.2
  .logInfo "Event handling" none ::
  (if denied then
    [.logError "Permission denied: " (some cmd.fullName),
     .reply (pyRepr cmd.fullName ++ "：权限不足")]
  else
    match cmd with
    | .internal d subs =>
      (match rawArgs with
       | [] =>
          [.logError "Incomplete command: " (some d.fullName),
           .reply (Command.helpInfo (.internal d subs) roles)]
       | a :: _ =>
          if helpFlag a then [.reply (Command.helpInfo (.internal d subs) roles)]
          else
            [.logError "Invalid command: " (some d.fullName),
             .reply (pyRepr d.fullName ++ "：无效的子命令 " ++ pyRepr a),
             .reply (Command.helpInfo (.internal d subs) roles)])
    | .leaf d f =>
      if (match rawArgs with
          | a :: _ => helpFlag a
          | [] => false) then
        [.reply (Command.helpInfo (.leaf d f) roles)]
      else
        interpretRV (f.call rawArgs) reportConfigured
            (Command.helpInfo (.leaf d f) roles)
          ++ [.logInfo "Event finished" none])

/-- Spec-side notion of an *effective* role restriction: `limited_roles`
is a non-empty set the caller's role set does not intersect. -/
def Restricted (lr : Option (List String)) (roles : List String) : Prop :=
  ∃ l, lr = some l ∧ l ≠ [] ∧ ∀ r, r ∈ roles → r ∉ l

/-- The resolution walk as the specification words it, written as an
inductive relation over `(node, tokens-from-idx, roles, result)`:
exhausted tokens, unknown subcommand, denial at a restricted child,
descent into a permitted child, and termination at a leaf. -/
inductive ResolveSpec :
    Command → List String → List String →
    Command × List String × Bool → Prop where
  | leafStop (d : CmdData) (f : CommandFunction) (rest roles : List String) :
      ResolveSpec (.leaf d f) rest roles (.leaf d f, rest, false)
  | exhausted (d : CmdData) (subs : List Command) (roles : List String) :
      ResolveSpec (.internal d subs) [] roles (.internal d subs, [], false)
  | noMatch (d : CmdData) (subs : List Command) (t : String)
      (rest roles : List String) :
      findSubcommand t subs = none →
      ResolveSpec (.internal d subs) (t :: rest) roles
        (.internal d subs, t :: rest, false)
  | denied (d : CmdData) (subs : List Command) (t : String)
      (rest roles : List String) (c : Command) :
      findSubcommand t subs = some c →
      Restricted c.limitedRoles roles →
      ResolveSpec (.internal d subs) (t :: rest) roles (c, rest, true)
  | descend (d : CmdData) (subs : List Command) (t : String)
      (rest roles : List String) (c : Command)
      (out : Command × List String × Bool) :
      findSubcommand t subs = some c →
      ¬ Restricted c.limitedRoles roles →
      ResolveSpec c rest roles out →
      ResolveSpec (.internal d subs) (t :: rest) roles out

/-- Index path into the subcommand lists of a tree. -/
def getAtPath : Command → List Nat → Option Command
  | c, [] => some c
  | c, i :: p =>
    match (Command.subsOf c)[i]? with
    | none => none
    | some child => getAtPath child p

/-- The names of the nodes along an index path, root included. -/
def pathNames : Command → List Nat → Option (List String)
  | c, [] => some [c.data.name]
  | c, i :: p =>
    match (Command.subsOf c)[i]? with
    | none => none
    | some child =>
      match pathNames child p with
      | none => none
      | some l => some (c.data.name :: l)

/-! ## Helper lemmas -/

lemma roleDenied_iff_restricted (lr : Option (List String))
    (roles : List String) :
    roleDenied lr roles = true ↔ Restricted lr roles := by
  cases lr with
  | none => simp [roleDenied, Restricted]
  | some l =>
    simp only [roleDenied, Restricted, rolesOverlap, Bool.and_eq_true,
      Bool.not_eq_true', List.any_eq_false, Option.some.injEq]
    constructor
    · rintro ⟨he, hd⟩
      refine ⟨l, rfl, ?_, ?_⟩
      · intro h
        subst h
        simp at he
      · intro r hr hrl
        have := hd r hrl
        simp [List.elem_iff] at this
        exact this hr
    · rintro ⟨l2, rfl, hne, hdis⟩
      refine ⟨by simpa [List.isEmpty_iff] using hne, ?_⟩
      intro r hrl
      simp only [List.contains, Bool.not_eq_true]
      rw [Bool.eq_false_iff]
      intro helem
      exact hdis r (List.elem_iff.mp helem) hrl

lemma findSubcommand_mem {t : String} {subs : List Command} {c : Command}
    (h : findSubcommand t subs = some c) : c ∈ subs ∧ c.data.name = t := by
  unfold findSubcommand at h
  refine ⟨List.mem_of_find?_eq_some h, ?_⟩
  have := List.find?_some h
  simpa using this

/-! ## C1: the resolution walk matches its specification -/

/-- C1.  For every command tree node, token suffix and role set, the
resolution walk `resolveCmd` (the loop of `_parse_command`) satisfies the
specified case analysis `ResolveSpec`: incomplete command, unknown
subcommand, denial at an (effectively) role-restricted child, descent into
a permitted child, and termination at a leaf. -/
theorem resolveCmd_meets_spec (c : Command) (rest roles : List String) :
    ResolveSpec c rest roles (resolveCmd c rest roles) := by
  induction rest generalizing c with
  | nil =>
    cases c with
    | leaf d f => exact ResolveSpec.leafStop d f [] roles
    | internal d subs => exact ResolveSpec.exhausted d subs roles
  | cons t rest ih =>
    cases c with
    | leaf d f => exact ResolveSpec.leafStop d f (t :: rest) roles
    | internal d subs =>
      unfold resolveCmd
      cases hf : findSubcommand t subs with
      | none => exact ResolveSpec.noMatch d subs t rest roles hf
      | some next =>
        by_cases hd : roleDenied next.data.limitedRoles roles = true
        · simp only [hd, if_true]
          exact ResolveSpec.denied d subs t rest roles next hf
            ((roleDenied_iff_restricted _ _).mp hd)
        · simp only [hd, if_false]
          exact ResolveSpec.descend d subs t rest roles next _ hf
            (fun hr => hd ((roleDenied_iff_restricted _ _).mpr hr))
            (ih next)


/-! ## C2: denial at a role-restricted node -/

/-- A handler used in concrete example trees. -/
def exampleHandler : List PyVal → ReturnValue := fun _ => { code := 0 }

/-- An internal node with an *empty* `limited_roles` set, used to exhibit
the empty-set edge case. -/
def emptySetNode : Command := Command.internal ⟨"sub", "d", some [], "root sub"⟩ []

/-- The example tree around `emptySetNode`. -/
def emptySetRoot : Command :=
  Command.internal ⟨"root", "", none, "root"⟩ [emptySetNode]

/-- C2 counterexample.  `emptySetNode.limited_roles` is a set (not
`None`), and the caller's empty role set does not intersect it, yet
`_parse_command` does **not** deny: Python truthiness makes the empty set
behave as unrestricted, the walk descends into the node and returns
`denied = false`. -/
theorem parseCommand_emptySet_not_denied :
    Command.limitedRoles emptySetNode = some []
      ∧ parseCommand emptySetRoot ["root", "sub"] []
          = (emptySetNode, [], false) :=
  ⟨rfl, rfl⟩

/-- C2 (amended).  For every node whose `limited_roles` is a *non-empty*
set the caller's role set does not intersect, dispatch is denied at that
node: the walk returns `(node, tokens after the match, denied = true)`
immediately — no descendant is reached and no handler is invoked,
whatever the remaining tokens — and `handle` then emits exactly the
denial log and a permission-denied reply naming the node's `full_name`. -/
theorem dispatch_denied_at_restricted_node :
    (∀ (d : CmdData) (subs : List Command) (t : String)
        (rest roles : List String) (c : Command),
      findSubcommand t subs = some c →
      Restricted c.limitedRoles roles →
      resolveCmd (.internal d subs) (t :: rest) roles = (c, rest, true))
    ∧ ∀ (root : Command) (cfg : Bool) (tokens roles : List String)
        (c : Command) (args : List String),
      parseCommand root tokens roles = (c, args, true) →
      handle root cfg tokens roles =
        [.logInfo "Event handling" none,
         .logError "Permission denied: " (some c.fullName),
         .reply (pyRepr c.fullName ++ "：权限不足")] := by
  constructor
  · intro d subs t rest roles c hf hr
    have hden : roleDenied c.data.limitedRoles roles = true :=
      (roleDenied_iff_restricted _ _).mpr hr
    unfold resolveCmd
    rw [hf]
    simp [hden]
  · intro root cfg tokens roles c args hp
    simp [handle, hp]

/-- A node with a non-empty role restriction, for the C2 witness tree. -/
def adminNode : Command :=
  Command.internal ⟨"state", "s", some ["admin"], "ctrl state"⟩
    [Command.leaf ⟨"save", "", none, "ctrl state save"⟩
      (.fixed [] exampleHandler)]

/-- The C2 witness tree. -/
def adminRoot : Command :=
  Command.internal ⟨"ctrl", "", none, "ctrl"⟩ [adminNode]

/-- Witness for C2: a caller without the `admin` role is denied at
`ctrl state` even though more tokens follow, and `handle` replies with
the permission-denied message naming `ctrl state`. -/
theorem dispatch_denied_at_restricted_node_witness :
    resolveCmd adminRoot ["state", "save"] ["user"] = (adminNode, ["save"], true)
      ∧ handle adminRoot false ["ctrl", "state", "save"] ["user"] =
          [.logInfo "Event handling" none,
           .logError "Permission denied: " (some "ctrl state"),
           .reply (pyRepr "ctrl state" ++ "：权限不足")] :=
  ⟨dispatch_denied_at_restricted_node.1 ⟨"ctrl", "", none, "ctrl"⟩
      [adminNode] "state" ["save"] ["user"] adminNode (by rfl)
      ⟨["admin"], rfl, by decide, by decide⟩,
   dispatch_denied_at_restricted_node.2 adminRoot false
      ["ctrl", "state", "save"] ["user"] adminNode ["save"] (by rfl)⟩

/-! ## C3: the Fixed contract -/

/-- Declarative statement that every supplied token converts to the type
of the descriptor at the same position. -/
def AllConvert (raw : List String) (ds : List ParamDesc) : Prop :=
  ∀ (i : Nat) (r : String) (d : ParamDesc),
    raw[i]? = some r → ds[i]? = some d → (d.ty.convert r).isSome = true

lemma convertZip_err_char :
    ∀ (raw : List String) (ds : List ParamDesc) (rv : ReturnValue),
      convertZip raw ds = .error rv →
      ∃ (i : Nat) (r : String) (d : ParamDesc),
        raw[i]? = some r ∧ ds[i]? = some d ∧ d.ty.convert r = none ∧
        rv = convErrRV d r ∧
        ∀ (j : Nat), j < i → ∀ (r2 : String) (d2 : ParamDesc),
          raw[j]? = some r2 → ds[j]? = some d2 →
          (d2.ty.convert r2).isSome = true := by
  intro raw
  induction raw with
  | nil => intro ds rv h; simp [convertZip] at h
  | cons r rs ih =>
    intro ds rv h
    cases ds with
    | nil => simp [convertZip] at h
    | cons d ds2 =>
      rw [convertZip] at h
      cases hc : d.ty.convert r with
      | none =>
        rw [hc] at h
        refine ⟨0, r, d, by simp, by simp, hc, ?_, ?_⟩
        · cases h; rfl
        · intro j hj; omega
      | some v =>
        rw [hc] at h
        cases hz : convertZip rs ds2 with
        | error e =>
          rw [hz] at h
          obtain ⟨i, r3, d3, hr3, hd3, hcn, hrv, hpre⟩ := ih ds2 e hz
          refine ⟨i + 1, r3, d3, by simpa using hr3, by simpa using hd3,
            hcn, by cases h; exact hrv, ?_⟩
          intro j hj r2 d2 hr2 hd2
          cases j with
          | zero =>
            simp at hr2 hd2
            subst hr2; subst hd2
            simp [hc]
          | succ k =>
            simp at hr2 hd2
            exact hpre k (by omega) r2 d2 hr2 hd2
        | ok vs => rw [hz] at h; cases h

lemma convertZip_ok_iff :
    ∀ (raw : List String) (ds : List ParamDesc),
      (∃ args, convertZip raw ds = .ok args) ↔ AllConvert raw ds := by
  intro raw
  induction raw with
  | nil =>
    intro ds
    constructor
    · intro _
      intro i r d hr _
      simp at hr
    · intro _; exact ⟨[], by simp [convertZip]⟩
  | cons r rs ih =>
    intro ds
    cases ds with
    | nil =>
      constructor
      · intro _
        intro i r2 d hr hd
        simp at hd
      · intro _; exact ⟨[], by simp [convertZip]⟩
    | cons d ds2 =>
      constructor
      · rintro ⟨args, h⟩
        intro i r2 d2 hr2 hd2
        rw [convertZip] at h
        cases hc : d.ty.convert r with
        | none => rw [hc] at h; cases h
        | some v =>
          rw [hc] at h
          cases hz : convertZip rs ds2 with
          | error e => rw [hz] at h; cases h
          | ok vs =>
            cases i with
            | zero =>
              simp at hr2 hd2
              subst hr2; subst hd2
              simp [hc]
            | succ k =>
              simp at hr2 hd2
              exact (ih ds2).mp ⟨vs, hz⟩ k r2 d2 hr2 hd2
      · intro hall
        have hc : (d.ty.convert r).isSome = true := hall 0 r d (by simp) (by simp)
        obtain ⟨v, hv⟩ := Option.isSome_iff_exists.mp hc
        have htail : AllConvert rs ds2 := by
          intro i r2 d2 hr2 hd2
          exact hall (i + 1) r2 d2 (by simpa using hr2) (by simpa using hd2)
        obtain ⟨vs, hvs⟩ := (ih ds2).mpr htail
        exact ⟨v :: vs, by rw [convertZip, hv, hvs]⟩

/-- C3.  The Fixed contract (`FunctionWithFixedParams.__call__`): the
handler is invoked iff exactly `n` tokens are supplied and every token
converts to its descriptor's type; a wrong count returns the constant
count-error `ReturnValue` (`code = 1`, `need_help = true`) without
consulting the handler; a conversion failure short-circuits the bind and
returns the error `ReturnValue` naming the first offending parameter and
raw value, with every earlier token having converted and no handler
invocation. -/
theorem fixedCall_spec (ds : List ParamDesc)
    (handler : List PyVal → ReturnValue) (raw : List String) :
    (∀ args, convertZip raw ds = .ok args → raw.length = ds.length →
      fixedCall ds handler raw = handler args)
    ∧ (raw.length ≠ ds.length →
      fixedCall ds handler raw = fixedArgNumRV ds.length raw.length
        ∧ (fixedArgNumRV ds.length raw.length).code = 1
        ∧ (fixedArgNumRV ds.length raw.length).need_help = true)
    ∧ (∀ rv, convertZip raw ds = .error rv → raw.length = ds.length →
      fixedCall ds handler raw = rv ∧ rv.code = 1 ∧ rv.need_help = true ∧
      ∃ (i : Nat) (r : String) (d : ParamDesc),
        raw[i]? = some r ∧ ds[i]? = some d ∧ d.ty.convert r = none ∧
        rv = convErrRV d r ∧
        ∀ (j : Nat), j < i → ∀ (r2 : String) (d2 : ParamDesc),
          raw[j]? = some r2 → ds[j]? = some d2 →
          (d2.ty.convert r2).isSome = true)
    ∧ ((∃ args, convertZip raw ds = .ok args) ↔ AllConvert raw ds) := by
  refine ⟨?_, ?_, ?_, convertZip_ok_iff raw ds⟩
  · intro args hok hlen
    simp [fixedCall, hlen, hok]
  · intro hne
    exact ⟨by simp [fixedCall, hne], rfl, rfl⟩
  · intro rv herr hlen
    obtain ⟨i, r, d, hr, hd, hcn, hrv, hpre⟩ := convertZip_err_char raw ds rv herr
    exact ⟨by simp [fixedCall, hlen, herr], by rw [hrv]; rfl,
      by rw [hrv]; rfl, i, r, d, hr, hd, hcn, hrv, hpre⟩

/-- Witness for C3: with one `int` descriptor, token `"5"` invokes the
handler with the converted value; zero tokens yield the count error; the
unparseable token `"abc"` yields the conversion error naming parameter
`x` and the raw value. -/
theorem fixedCall_spec_witness :
    fixedCall [⟨"x", .tInt, "an int"⟩] exampleHandler ["5"]
        = exampleHandler [PyVal.vInt 5]
      ∧ fixedCall [⟨"x", .tInt, "an int"⟩] exampleHandler []
          = fixedArgNumRV 1 0
      ∧ fixedCall [⟨"x", .tInt, "an int"⟩] exampleHandler ["abc"]
          = convErrRV ⟨"x", .tInt, "an int"⟩ "abc" :=
  ⟨(fixedCall_spec [⟨"x", .tInt, "an int"⟩] exampleHandler ["5"]).1
      [PyVal.vInt 5] (by rfl) (by rfl),
   ((fixedCall_spec [⟨"x", .tInt, "an int"⟩] exampleHandler []).2.1
      (by decide)).1,
   ((fixedCall_spec [⟨"x", .tInt, "an int"⟩] exampleHandler ["abc"]).2.2.1
      (convErrRV ⟨"x", .tInt, "an int"⟩ "abc") (by rfl) (by rfl)).1⟩

/-! ## C4: the FixedOptional contract (code bug: no upper count check) -/

/-- C4 evaluation at the failing input.  `FunctionWithOptionalParam.__call__`
checks only `len(raw_arg_list) < len(fixed)`: with zero fixed descriptors
and two supplied tokens (one more than the documented maximum of
`n + 1 = 1`) the handler **is** invoked, with the optional argument bound
to the **last** token and the first token silently dropped — where the
claim (and the contract's own count-error message, which says
`expected 0 or 1`) requires a `code = 1`, `need_help = true` argument
error without invocation. -/
theorem optionalCall_extra_tokens_bug (h : List PyVal → ReturnValue) :
    optionalCall [] ⟨"message", .tStr, "m"⟩ h ["x", "y"] = h [PyVal.vStr "y"] :=
  rfl

/-! ## C5: the FixedVariadic contract -/

lemma convertTail_ok_char :
    ∀ (d : ParamDesc) (l : List String) (vs : List PyVal),
      convertTail d l = .ok vs →
      vs.length = l.length ∧
        ∀ (i : Nat) (r : String), l[i]? = some r →
          ∃ v, d.ty.convert r = some v ∧ vs[i]? = some v := by
  intro d l
  induction l with
  | nil =>
    intro vs h
    rw [convertTail] at h
    cases h
    exact ⟨rfl, by intro i r hr; simp at hr⟩
  | cons r rs ih =>
    intro vs h
    rw [convertTail] at h
    cases hc : d.ty.convert r with
    | none => rw [hc] at h; cases h
    | some v =>
      rw [hc] at h
      cases hz : convertTail d rs with
      | error e => rw [hz] at h; cases h
      | ok vs2 =>
        rw [hz] at h
        cases h
        obtain ⟨hlen, hpt⟩ := ih vs2 hz
        refine ⟨by simp [hlen], ?_⟩
        intro i r2 hr2
        cases i with
        | zero =>
          simp at hr2
          subst hr2
          exact ⟨v, hc, by simp⟩
        | succ k =>
          simp at hr2
          obtain ⟨v2, hv2, hvs2⟩ := hpt k r2 hr2
          exact ⟨v2, hv2, by simpa using hvs2⟩

/-- C5.  The FixedVariadic contract (`FunctionWithVariableParams.__call__`):
fewer tokens than fixed descriptors yields the constant count-error
`ReturnValue` (`code = 1`, `need_help = true`) without invoking the
handler; with `k ≥ n` tokens and all conversions succeeding, the handler
is invoked with the `n` converted fixed arguments followed by `k - n`
trailing arguments, each token beyond the fixed part individually
converted to the variadic descriptor's type. -/
theorem variadicCall_spec (ds : List ParamDesc) (vd : ParamDesc)
    (handler : List PyVal → ReturnValue) (raw : List String) :
    (raw.length < ds.length →
      variadicCall ds vd handler raw = varArgNumRV ds.length raw.length
        ∧ (varArgNumRV ds.length raw.length).code = 1
        ∧ (varArgNumRV ds.length raw.length).need_help = true)
    ∧ ∀ args tailArgs, ds.length ≤ raw.length →
        convertZip (raw.take ds.length) ds = .ok args →
        convertTail vd (raw.drop ds.length) = .ok tailArgs →
        variadicCall ds vd handler raw = handler (args ++ tailArgs)
          ∧ tailArgs.length = raw.length - ds.length
          ∧ ∀ (i : Nat) (r : String), (raw.drop ds.length)[i]? = some r →
              ∃ v, vd.ty.convert r = some v ∧ tailArgs[i]? = some v := by
  constructor
  · intro hlt
    exact ⟨by simp [variadicCall, hlt], rfl, rfl⟩
  · intro args tailArgs hle hfix htail
    obtain ⟨hlen, hpt⟩ := convertTail_ok_char vd (raw.drop ds.length) tailArgs htail
    refine ⟨?_, by simp [hlen], hpt⟩
    simp [variadicCall, Nat.not_lt_of_le hle, hfix, htail]

/-- Witness for C5: one fixed `int` descriptor and a variadic `str`
descriptor; tokens `["3", "a", "b"]` invoke the handler with the fixed
argument `3` and the two converted variadic arguments; the empty token
list is short of the fixed part and yields the count error. -/
theorem variadicCall_spec_witness :
    variadicCall [⟨"n", .tInt, "d"⟩] ⟨"m", .tStr, "d"⟩ exampleHandler
        ["3", "a", "b"]
      = exampleHandler [PyVal.vInt 3, PyVal.vStr "a", PyVal.vStr "b"]
      ∧ variadicCall [⟨"n", .tInt, "d"⟩] ⟨"m", .tStr, "d"⟩ exampleHandler []
          = varArgNumRV 1 0 :=
  ⟨((variadicCall_spec [⟨"n", .tInt, "d"⟩] ⟨"m", .tStr, "d"⟩ exampleHandler
      ["3", "a", "b"]).2 [PyVal.vInt 3] [PyVal.vStr "a", PyVal.vStr "b"]
      (by decide) (by rfl) (by rfl)).1,
   ((variadicCall_spec [⟨"n", .tInt, "d"⟩] ⟨"m", .tStr, "d"⟩ exampleHandler
      []).1 (by decide)).1⟩

/-! ## C6: full names equal the space-joined path from the root -/

lemma updateFullNameList_getElem? (pfx : String) (l : List Command) :
    ∀ i : Nat, (updateFullNameList pfx l)[i]? = (l[i]?).map (updateFullName pfx) := by
  induction l with
  | nil => intro i; simp [updateFullNameList]
  | cons c cs ih =>
    intro i
    rw [updateFullNameList]
    cases i with
    | zero => simp
    | succ k => simpa using ih k

lemma updateFullName_path (p : List Nat) :
    ∀ (c : Command) (pfx : String) (node : Command),
      getAtPath (updateFullName pfx c) p = some node →
      ∃ l, pathNames (updateFullName pfx c) p = some l ∧ l ≠ [] ∧
        node.fullName = pfx ++ " " ++ joinWith " " l := by
  induction p with
  | nil =>
    intro c pfx node h
    rw [getAtPath] at h
    cases h
    refine ⟨[(updateFullName pfx c).data.name], by rw [pathNames], by simp, ?_⟩
    cases c with
    | leaf d f =>
      simp [updateFullName, Command.fullName, Command.data, joinWith]
    | internal d subs =>
      simp [updateFullName, Command.fullName, Command.data, joinWith]
  | cons i p ih =>
    intro c pfx node h
    cases c with
    | leaf d f =>
      rw [getAtPath] at h
      simp [updateFullName, Command.subsOf] at h
    | internal d subs =>
      rw [getAtPath] at h
      rw [updateFullName] at h
      cases hs : subs[i]? with
      | none =>
        rw [show Command.subsOf
              (Command.internal { d with fullName := pfx ++ " " ++ d.name }
                (updateFullNameList (pfx ++ " " ++ d.name) subs))
            = updateFullNameList (pfx ++ " " ++ d.name) subs from rfl,
          updateFullNameList_getElem?, hs] at h
        simp at h
      | some ch =>
        rw [show Command.subsOf
              (Command.internal { d with fullName := pfx ++ " " ++ d.name }
                (updateFullNameList (pfx ++ " " ++ d.name) subs))
            = updateFullNameList (pfx ++ " " ++ d.name) subs from rfl,
          updateFullNameList_getElem?, hs] at h
        simp only [Option.map_some'] at h
        obtain ⟨l, hl, hne, hfn⟩ := ih ch (pfx ++ " " ++ d.name) node h
        refine ⟨d.name :: l, ?_, by simp, ?_⟩
        · rw [pathNames]
          rw [show Command.subsOf
                (updateFullName pfx (Command.internal d subs))
              = updateFullNameList (pfx ++ " " ++ d.name) subs from rfl,
            updateFullNameList_getElem?, hs]
          simp only [Option.map_some']
          rw [show (updateFullName pfx (Command.internal d subs)).data.name
              = d.name from rfl]
          rw [hl]
        · cases l with
          | nil => exact absurd rfl hne
          | cons x t =>
            rw [hfn]
            rw [joinWith]
            simp [String.append_assoc]

/-- C6.  In the tree built by `RootCommand.__init__`, every node reachable
by an index path has `full_name` equal to the space-joined names along the
path from the root (the root's own name seeding the join); the stamping
happens once, inside `mkRootCommand`, and no other modelled operation
produces a modified tree. -/
theorem rootCommand_fullName_eq_path (name desc : String)
    (lr : Option (List String)) (subs : List Command) (p : List Nat)
    (node : Command) :
    getAtPath (mkRootCommand name desc lr subs) p = some node →
    ∃ l, pathNames (mkRootCommand name desc lr subs) p = some l ∧
      node.fullName = joinWith " " l := by
  intro h
  cases p with
  | nil =>
    rw [getAtPath] at h
    cases h
    exact ⟨[name], by rw [pathNames]; rfl, rfl⟩
  | cons i p =>
    rw [getAtPath] at h
    rw [show Command.subsOf (mkRootCommand name desc lr subs)
        = updateFullNameList name subs from rfl,
      updateFullNameList_getElem?] at h
    cases hs : subs[i]? with
    | none => rw [hs] at h; simp at h
    | some ch =>
      rw [hs] at h
      simp only [Option.map_some'] at h
      obtain ⟨l, hl, hne, hfn⟩ := updateFullName_path p ch name node h
      refine ⟨name :: l, ?_, ?_⟩
      · rw [pathNames]
        rw [show Command.subsOf (mkRootCommand name desc lr subs)
            = updateFullNameList name subs from rfl,
          updateFullNameList_getElem?, hs]
        simp only [Option.map_some']
        rw [show (mkRootCommand name desc lr subs).data.name = name from rfl,
          hl]
      · cases l with
        | nil => exact absurd rfl hne
        | cons x t =>
          rw [hfn, joinWith]

/-- The C6 witness tree before name stamping. -/
def rawTree : List Command :=
  [mkInternalCommand "state" "" none
    [mkLeafCommand "save" "" none (.fixed [] exampleHandler)]]

/-- Witness for C6: in `RootCommand("ctrl", ..., [state [save]])` the node
at index path `[0, 0]` carries `full_name = "ctrl state save"`, the
space-joined root-to-node name path. -/
theorem rootCommand_fullName_eq_path_witness :
    ∃ l, pathNames (mkRootCommand "ctrl" "c" none rawTree) [0, 0] = some l ∧
      (Command.leaf ⟨"save", "", none, "ctrl state save"⟩
        (.fixed [] exampleHandler)).fullName = joinWith " " l :=
  rootCommand_fullName_eq_path "ctrl" "c" none rawTree [0, 0]
    (Command.leaf ⟨"save", "", none, "ctrl state save"⟩
      (.fixed [] exampleHandler))
    (by simp [mkRootCommand, rawTree, mkInternalCommand, mkLeafCommand,
      updateFullNameList, updateFullName, getAtPath, Command.subsOf])

/-! ## C7: interpretation of a handler ReturnValue -/

/-- C7 counterexample.  A `ReturnValue` with `code = 0` and `reply` *set*
to the empty string produces no effects at all: the dispatcher tests
Python truthiness (`if ret.reply:`), so the set-but-empty reply is never
sent, where the claim requires a verbatim send whenever `reply` is set. -/
theorem interpretRV_empty_reply_dropped :
    (ReturnValue.mk 0 none (some "") none false).reply = some ""
      ∧ interpretRV (ReturnValue.mk 0 none (some "") none false) true "HELP"
          = []
      ∧ Effect.reply "" ∉
          interpretRV (ReturnValue.mk 0 none (some "") none false) true "HELP" :=
  ⟨rfl, rfl, by decide⟩

/-- The interpretation of a `ReturnValue` as the amended claim words it:
four independent, optional channels, where a channel fires only when its
string is set *to a non-empty string* (Python truthiness); the report
channel additionally needs a configured report group, and the help text
is sent after the reply. -/
def interpretSpec (rv : ReturnValue) (reportConfigured : Bool)
    (helpText : String) : List Effect :=
  (match rv.log with
   | some s =>
     if rv.code ≠ 0 then
       (if s.isEmpty then [.logError "Unknown error occurred" none]
        else [.logError "Error occurred: " (some s)])
     else if s.isEmpty then [] else [.logInfo "Message: " (some s)]
   | none => if rv.code ≠ 0 then [.logError "Unknown error occurred" none] else [])
  ++ (match rv.reply with
      | some s => if s.isEmpty then [] else [.reply s]
      | none => [])
  ++ (match rv.report with
      | some s => if s.isEmpty || !reportConfigured then [] else [.report s]
      | none => [])
  ++ (if rv.need_help then [.reply helpText] else [])

/-- C7 (amended).  The dispatcher's `ReturnValue` interpretation block
equals the four-channel specification `interpretSpec`: non-zero `code`
with a non-empty `log` logs that message at error level, non-zero `code`
otherwise logs a generic unknown-error message, zero `code` with a
non-empty `log` logs at info level; a non-empty `reply` is sent verbatim;
a non-empty `report` is forwarded when a report group is configured; and
`need_help` additionally sends the help text after the reply.  Channels
whose optional string is `None` **or empty** (Python falsy) are
skipped. -/
theorem interpretRV_eq_interpretSpec (rv : ReturnValue)
    (reportConfigured : Bool) (helpText : String) :
    interpretRV rv reportConfigured helpText
      = interpretSpec rv reportConfigured helpText := by
  rcases rv with ⟨c, l, r, p, nh⟩
  cases l <;> cases r <;> cases p <;> by_cases hc : c = 0 <;>
    simp [interpretRV, interpretSpec, strTruthy, hc] <;>
    split_ifs <;> simp_all

/-! ## C8: help lists exactly the role-visible children -/

/-- C8.  `InternalCommand.help_info` renders the header (full name,
description, subcommand-list heading) followed by exactly one bullet per
child passing the role-visibility test, in child order; the visibility
test holds iff the child's `limited_roles` is `None` or intersects the
caller's roles, and a child failing it is not among the rendered
children. -/
theorem helpInfo_lists_exactly_visible (d : CmdData) (subs : List Command)
    (roles : List String) :
    Command.helpInfo (.internal d subs) roles
      = d.fullName ++ "\n" ++ d.desc ++ "\n" ++ "子命令列表：\n"
        ++ joinWith "\n"
          ((subs.filter (fun c => roleVisible c roles)).map bulletLine)
    ∧ ∀ c, c ∈ subs →
        ((roleVisible c roles = true ↔
          (c.limitedRoles = none
            ∨ ∃ r, r ∈ roles ∧ r ∈ c.limitedRoles.getD []))
        ∧ (roleVisible c roles = false →
            c ∉ subs.filter (fun x => roleVisible x roles))) := by
  refine ⟨rfl, ?_⟩
  intro c hc
  constructor
  · cases hlr : c.data.limitedRoles with
    | none => simp [roleVisible, Command.limitedRoles, hlr]
    | some l =>
      simp [roleVisible, Command.limitedRoles, hlr, rolesOverlap,
        List.any_eq_true, List.elem_iff]
  · intro hviz hmem
    rw [List.mem_filter] at hmem
    rw [hviz] at hmem
    exact absurd hmem.2 (by simp)

/-- A publicly visible child for the C8 witness. -/
def pubChild : Command := mkInternalCommand "pub" "p" none []

/-- An admin-only child for the C8 witness. -/
def hiddenChild : Command := Command.internal ⟨"sec", "s", some ["admin"], "sec"⟩ []

/-- Witness for C8: with children `pub` (unrestricted) and `sec`
(admin-only) and caller role `user`, the help text shows exactly the
`pub` bullet and `sec` is not among the rendered children. -/
theorem helpInfo_lists_exactly_visible_witness :
    Command.helpInfo
        (.internal ⟨"root", "d", none, "root"⟩ [pubChild, hiddenChild]) ["user"]
      = "root\nd\n子命令列表：\n* pub: p"
    ∧ hiddenChild ∉
        [pubChild, hiddenChild].filter (fun x => roleVisible x ["user"]) :=
  ⟨Eq.trans
    ((helpInfo_lists_exactly_visible ⟨"root", "d", none, "root"⟩
      [pubChild, hiddenChild] ["user"]).1) (by rfl),
   ((helpInfo_lists_exactly_visible ⟨"root", "d", none, "root"⟩
      [pubChild, hiddenChild] ["user"]).2 hiddenChild (by simp)).2 (by rfl)⟩

/-! ## C9: the usage line -/

/-- C9 counterexample.  With one fixed parameter and an optional tail,
`get_param_inline` yields `"<a:int>[<b:str>]"` — the bracketed tail is
appended with **no** separating space, where the claim requires
`"<a:int> [<b:str>]"`. -/
theorem usage_line_no_space_counterexample :
    optionalInline [⟨"a", .tInt, "da"⟩] ⟨"b", .tStr, "db"⟩ = "<a:int>[<b:str>]"
      ∧ "<a:int>[<b:str>]" ≠ "<a:int> [<b:str>]" :=
  ⟨rfl, by decide⟩

/-- C9 (amended).  `get_param_inline` renders `<name:type>` for each
fixed parameter, space-joined in descriptor order; an optional tail
appends `[<name:type>]` and a variadic tail appends `[<name:type> ...]`
**directly**, with no space between the last fixed fragment and the
bracketed tail. -/
theorem usage_line_spec (descs : List ParamDesc) (od vd : ParamDesc)
    (h : List PyVal → ReturnValue) :
    CommandFunction.paramInline (.fixed descs h)
        = joinWith " " (descs.map inlineFrag)
      ∧ CommandFunction.paramInline (.fixedOptional descs od h)
          = joinWith " " (descs.map inlineFrag) ++ "[" ++ inlineFrag od ++ "]"
      ∧ CommandFunction.paramInline (.fixedVariadic descs vd h)
          = joinWith " " (descs.map inlineFrag)
              ++ "[" ++ inlineFrag vd ++ " ...]" :=
  ⟨rfl, rfl, rfl⟩

/-! ## C10: the empty limited_roles set -/

/-- C10.  A node whose `limited_roles` is the empty set is unrestricted
for resolution — for every caller role set the walk never denies there
and descends into (or, for a leaf, stops at and invokes) the node — yet
the parent's help rendering omits it for every caller role set: empty-set
nodes are usable by everyone and listed for no one. -/
theorem emptyRoleSet_unrestricted_but_unlisted :
    (∀ (d : CmdData) (subs : List Command) (t : String)
        (rest roles : List String) (c : Command),
      findSubcommand t subs = some c → c.limitedRoles = some [] →
      resolveCmd (.internal d subs) (t :: rest) roles = resolveCmd c rest roles)
    ∧ ∀ (c : Command) (roles : List String), c.limitedRoles = some [] →
        roleVisible c roles = false
          ∧ ∀ subs : List Command,
              c ∉ subs.filter (fun x => roleVisible x roles) := by
  constructor
  · intro d subs t rest roles c hf hlr
    have hlr2 : c.data.limitedRoles = some [] := hlr
    have hden : roleDenied c.data.limitedRoles roles = false := by
      simp [roleDenied, hlr2]
    conv_lhs => rw [resolveCmd]
    rw [hf]
    simp [hden]
  · intro c roles hlr
    have hlr2 : c.data.limitedRoles = some [] := hlr
    have hv : roleVisible c roles = false := by
      simp [roleVisible, hlr2, rolesOverlap]
    refine ⟨hv, ?_⟩
    intro subs hmem
    rw [List.mem_filter] at hmem
    rw [hv] at hmem
    exact absurd hmem.2 (by simp)

/-- Witness for C10: the empty-restricted node `sub` is descended into by
a caller with no roles at all, is invisible in help filtering, and absent
from any filtered child list. -/
theorem emptyRoleSet_unrestricted_but_unlisted_witness :
    resolveCmd emptySetRoot ["sub"] [] = resolveCmd emptySetNode [] []
      ∧ roleVisible emptySetNode [] = false
      ∧ emptySetNode ∉ [emptySetNode].filter (fun x => roleVisible x []) :=
  ⟨emptyRoleSet_unrestricted_but_unlisted.1 ⟨"root", "", none, "root"⟩
      [emptySetNode] "sub" [] [] emptySetNode (by rfl) (by rfl),
   (emptyRoleSet_unrestricted_but_unlisted.2 emptySetNode [] (by rfl)).1,
   (emptyRoleSet_unrestricted_but_unlisted.2 emptySetNode [] (by rfl)).2
      [emptySetNode]⟩
